import Mathlib

/-!
Verification of `case/scripts/quarter_cylinder_mesh.py`.

The file shallowly embeds the script's logic over `List Char` strings:

* `enforce_patch_type` and its line scanner (`stepLine`, `scanLines`,
  `enforceLines`), including the read/split (`readlines`) and
  write-back (`List.join`) of the whole file, and the event trace of
  its filesystem effects (`enforceTrace`);
* the symmetry-type normalization performed in `main`
  (`normalize_symmetry_type`);
* the radial grading policy of `build_quarter_cylinder` (`radial_chop`);
* the sequence of mesh-engine calls issued by `build_quarter_cylinder`
  (`build_quarter_cylinder` as a call trace).

Theorems about these definitions settle the specification claims.
-/

/-- The newline character, written via its code point. -/
def nlChar : Char := Char.ofNat 10

/-- The opening-brace character, written via its code point. -/
def lbraceChar : Char := Char.ofNat 123

/-- The closing-brace character, written via its code point. -/
def rbraceChar : Char := Char.ofNat 125

/-- The single-quote character used by the error message of the corrector. -/
def quoteChar : Char := Char.ofNat 39

/-- Whitespace test used by Python `str.strip` (ASCII fragment). -/
def isSp (c : Char) : Bool := c.isWhitespace

/-- Python `line.lstrip()`: drop leading whitespace. -/
def lstrip (l : List Char) : List Char := l.dropWhile isSp

/-- Python `line.rstrip()`: drop trailing whitespace. -/
def rstrip (l : List Char) : List Char := (l.reverse.dropWhile isSp).reverse

/-- Python `line.strip()`: drop whitespace on both ends. -/
def pyStrip (l : List Char) : List Char := rstrip (lstrip l)

/-- The attribute keyword `"type"` matched by the corrector. -/
def typeKw : List Char := "type".data

/-- The one-character string `"{"` matched by the corrector. -/
def lBrace : List Char := [lbraceChar]

/-- The one-character string `"}"` matched by the corrector. -/
def rBrace : List Char := [rbraceChar]

/-- Python `s.find(sub)`: index of the first occurrence of `sub` in `s`,
`none` when absent (Python returns `-1`). -/
def pyFind (sub : List Char) : List Char → Option Nat
  | [] => if sub.isPrefixOf ([] : List Char) then some 0 else none
  | c :: t =>
    if sub.isPrefixOf (c :: t) then some 0
    else (pyFind sub t).map (· + 1)

/-- The rewrite of an attribute line performed by `enforce_patch_type`
(source line 87-88): `indent = line[: line.find("type")]` followed by
`line = f"{indent}type {patch_type};\n"`.  The `none` branch mirrors
Python's `line[:-1]` for `find` returning `-1`; it is unreachable under
the guard of the loop. -/
def rewriteTypeLine (pt : List Char) (line : List Char) : List Char :=
  let indent :=
    match pyFind typeKw line with
    | some i => line.take i
    | none => line.take (line.length - 1)
  indent ++ "type ".data ++ pt ++ [';', nlChar]

/-- State of the scanner of `enforce_patch_type`: the mutable flags
`in_patch`, `seen_name` and `changed` of source lines 73-75. -/
structure ScanSt where
  inPatch : Bool
  seenName : Bool
  changed : Bool
deriving DecidableEq, Repr

/-- Initial scanner state (source lines 73-75: all flags `False`). -/
def initSt : ScanSt := ⟨false, false, false⟩

/-- One iteration of the `for line in lines` loop of `enforce_patch_type`
(source lines 77-92), returning the updated flags and the line that is
appended to `updated`. -/
def stepLine (pn pt : List Char) (st : ScanSt) (line : List Char) :
    ScanSt × List Char :=
  let stripped := pyStrip line
  let st1 : ScanSt :=
    if st.inPatch then st
    else if stripped = pn then { st with seenName := true }
    else if st.seenName && lBrace.isPrefixOf stripped then
      { st with inPatch := true, seenName := false }
    else st
  let hit : Bool := st1.inPatch && typeKw.isPrefixOf stripped
  let line2 := if hit then rewriteTypeLine pt line else line
  let st2 : ScanSt := { st1 with changed := st1.changed || hit }
  let st3 : ScanSt :=
    if st2.inPatch && rBrace.isPrefixOf stripped then
      { st2 with inPatch := false }
    else st2
  (st3, line2)

/-- The whole loop of `enforce_patch_type` over the list of lines,
returning the final flags and the `updated` list. -/
def scanLines (pn pt : List Char) : ScanSt → List (List Char) →
    ScanSt × List (List Char)
  | st, [] => (st, [])
  | st, l :: ls =>
    let p := stepLine pn pt st l
    let q := scanLines pn pt p.1 ls
    (q.1, p.2 :: q.2)

/-- The pure core of `enforce_patch_type`: from the list of lines of the
file, the list of lines written back and the final `changed` flag. -/
def enforceLines (pn pt : List Char) (lines : List (List Char)) :
    List (List Char) × Bool :=
  let r := scanLines pn pt initSt lines
  (r.2, r.1.changed)

/-- Helper for `readlines`: accumulates the current line (reversed). -/
def readlinesAux : List Char → List Char → List (List Char)
  | [], acc => if acc = [] then [] else [acc.reverse]
  | c :: cs, acc =>
    if c = nlChar then (nlChar :: acc).reverse :: readlinesAux cs []
    else readlinesAux cs (c :: acc)

/-- Python `f.readlines()`: split the file content into lines, keeping
the newline terminators. -/
def readlines (content : List Char) : List (List Char) :=
  readlinesAux content []

/-- The message of the `RuntimeError` raised by `enforce_patch_type`
(source lines 98-100). -/
def errMsg (pn pt path : List Char) : List Char :=
  "Failed to set patch ".data ++ [quoteChar] ++ pn ++ [quoteChar] ++
    " type to ".data ++ [quoteChar] ++ pt ++ [quoteChar] ++
    " in ".data ++ path ++ ".".data

/-- Observable outcome of one call of `enforce_patch_type`: the file
content on disk after the call, and the raised error message if any. -/
structure EnforceOutcome where
  content : List Char
  error : Option (List Char)
deriving DecidableEq, Repr

/-- `enforce_patch_type(blockmesh_path, patch_name, patch_type)` acting on
a file whose content is `content` (source lines 68-100): read and split
the file, run the scanner, write the whole updated content back, then
raise iff no line was rewritten. -/
def enforce_patch_type (path pn pt : List Char) (content : List Char) :
    EnforceOutcome :=
  let r := enforceLines pn pt (readlines content)
  { content := r.1.flatten
    error := if r.2 then none else some (errMsg pn pt path) }

/-- Filesystem events performed by `enforce_patch_type`, in order. -/
inductive FsEvent where
  | readF (path : List Char)
  | writeF (path content : List Char)
  | raiseE (msg : List Char)
deriving DecidableEq, Repr

/-- The ordered effect trace of `enforce_patch_type`: the read (line 70),
the unconditional write-back (lines 94-95), and then the raise (lines
97-100) exactly when no line was rewritten. -/
def enforceTrace (path pn pt : List Char) (content : List Char) :
    List FsEvent :=
  let r := enforceLines pn pt (readlines content)
  [FsEvent.readF path, FsEvent.writeF path r.1.flatten] ++
    (if r.2 then [] else [FsEvent.raiseE (errMsg pn pt path)])

/-- The symmetry-type normalization of `main` (source lines 132-134):
`sym_type = cfg.get("symmetry_patch_type") or "symmetry"` followed by the
case-insensitive coercion of `"symmetryplane"` to `"symmetry"`.  An
absent key yields `none`; Python's `or` replaces any falsy value (absent
key or empty string) by `"symmetry"`. -/
def normalize_symmetry_type (tok : Option (List Char)) : List Char :=
  let s :=
    match tok with
    | none => "symmetry".data
    | some t => if t.isEmpty then "symmetry".data else t
  if s.map Char.toLower = "symmetryplane".data then "symmetry".data else s

/-- A per-direction chop specification as passed to the mesh engine. -/
structure ChopSpec where
  count : Int
  end_size : Option ℚ
  c2c_expansion : Option ℚ
deriving DecidableEq, Repr

/-- The radial grading policy of `build_quarter_cylinder` (source lines
43-47): uniform chop when `wall_thickness` is `None`, otherwise a graded
chop with `end_size=wall_thickness` and `c2c_expansion=1.2`. -/
def radial_chop (radial_cells : Int) (wall_thickness : Option ℚ) : ChopSpec :=
  match wall_thickness with
  | none => ⟨radial_cells, none, none⟩
  | some w => ⟨radial_cells, some w, some ((12 : ℚ) / 10)⟩

/-- One call issued by `build_quarter_cylinder` to the mesh engine or to
the filesystem/corrector, in source order. -/
inductive BuildStep where
  | construct (axisPoint1 axisPoint2 radiusPoint1 : ℚ × ℚ × ℚ)
  | chop_axial (count : Int)
  | chop_radial (spec : ChopSpec)
  | chop_tangential (count : Int)
  | set_start_patch (name : List Char)
  | set_end_patch (name : List Char)
  | set_outer_patch (name : List Char)
  | set_symmetry_patch (name : List Char)
  | mesh_add
  | set_default_patch (name kind : List Char)
  | makedirs_dirname (path : List Char)
  | mesh_write (path : List Char) (debug : Option (List Char))
  | enforce (path patch ty : List Char)
deriving DecidableEq, Repr

/-- `build_quarter_cylinder` (source lines 16-65) as the ordered trace of
the calls it performs, paired with its return value (the output path). -/
def build_quarter_cylinder (length radius : ℚ)
    (axial_cells radial_cells tangential_cells : Int)
    (wall_thickness : Option ℚ)
    (wall_patch symmetry_patch symmetry_patch_type : List Char)
    (start_patch end_patch : List Char)
    (output_path : List Char) (debug_vtk : Option (List Char)) :
    List BuildStep × List Char :=
  ([BuildStep.construct (0, 0, 0) (0, 0, length) (radius, 0, 0),
    BuildStep.chop_axial axial_cells,
    BuildStep.chop_radial (radial_chop radial_cells wall_thickness),
    BuildStep.chop_tangential tangential_cells,
    BuildStep.set_start_patch start_patch,
    BuildStep.set_end_patch end_patch,
    BuildStep.set_outer_patch wall_patch,
    BuildStep.set_symmetry_patch symmetry_patch,
    BuildStep.mesh_add,
    BuildStep.set_default_patch "default".data wall_patch,
    BuildStep.makedirs_dirname output_path,
    BuildStep.mesh_write output_path debug_vtk,
    BuildStep.enforce output_path symmetry_patch symmetry_patch_type],
   output_path)

/-! Basic facts about `List.isPrefixOf` on characters. -/

theorem isPrefixOf_append_left (a : List Char) :
    ∀ b c : List Char, a.isPrefixOf b = true → a.isPrefixOf (b ++ c) = true := by
  induction a with
  | nil => intro b c _; simp [List.isPrefixOf]
  | cons x xs ih =>
    intro b c h
    cases b with
    | nil => simp [List.isPrefixOf] at h
    | cons y ys =>
      simp only [List.isPrefixOf, Bool.and_eq_true, beq_iff_eq] at h ⊢
      exact ⟨h.1, ih ys c h.2⟩

theorem isPrefixOf_append_self (a b : List Char) :
    a.isPrefixOf (a ++ b) = true := by
  induction a with
  | nil => simp [List.isPrefixOf]
  | cons x xs ih => simp [List.isPrefixOf, ih]

theorem exists_cons_of_isPrefixOf_cons {c : Char} {cs s : List Char}
    (h : (c :: cs).isPrefixOf s = true) :
    ∃ t, s = c :: t ∧ cs.isPrefixOf t = true := by
  cases s with
  | nil => simp [List.isPrefixOf] at h
  | cons d ds =>
    simp only [List.isPrefixOf, Bool.and_eq_true, beq_iff_eq] at h
    exact ⟨ds, by rw [h.1], h.2⟩

theorem isPrefixOf_of_isPrefixOf_rstrip {a x : List Char}
    (h : a.isPrefixOf (rstrip x) = true) : a.isPrefixOf x = true := by
  have hx : rstrip x ++ (x.reverse.takeWhile isSp).reverse = x := by
    conv_rhs =>
      rw [← List.reverse_reverse x,
        ← List.takeWhile_append_dropWhile (p := isSp) (l := x.reverse)]
    rw [List.reverse_append]
    rfl
  rw [← hx]
  exact isPrefixOf_append_left a _ _ h

/-! Facts about `takeWhile` / `dropWhile` over an all-whitespace prefix. -/

theorem dropWhile_append_all {p : Char → Bool} {ws : List Char}
    (h : ∀ c ∈ ws, p c = true) (x : List Char) :
    List.dropWhile p (ws ++ x) = List.dropWhile p x := by
  induction ws with
  | nil => simp
  | cons c cs ih =>
    have hc : p c = true := h c (by simp)
    simp only [List.cons_append, List.dropWhile_cons, hc, if_true]
    exact ih (fun d hd => h d (by simp [hd]))

theorem takeWhile_append_all_stop {p : Char → Bool} {ws : List Char}
    (h : ∀ c ∈ ws, p c = true) {c0 : Char} (hc0 : p c0 = false)
    (x : List Char) : List.takeWhile p (ws ++ c0 :: x) = ws := by
  induction ws with
  | nil => simp [List.takeWhile_cons, hc0]
  | cons c cs ih =>
    have hc : p c = true := h c (by simp)
    simp only [List.cons_append, List.takeWhile_cons, hc, if_true]
    rw [ih (fun d hd => h d (by simp [hd]))]

theorem mem_of_mem_takeWhile {p : Char → Bool} {c : Char} :
    ∀ {l : List Char}, c ∈ List.takeWhile p l → p c = true := by
  intro l
  induction l with
  | nil => intro h; simp [List.takeWhile] at h
  | cons d ds ih =>
    intro h
    rw [List.takeWhile_cons] at h
    cases hp : p d with
    | false => rw [hp] at h; simp at h
    | true =>
      rw [hp] at h
      simp only [if_true, List.mem_cons] at h
      rcases h with h | h
      · rwa [h]
      · exact ih h

theorem rstrip_snoc_space {c : Char} (hc : isSp c = true) (y : List Char) :
    rstrip (y ++ [c]) = rstrip y := by
  simp [rstrip, List.reverse_append, List.dropWhile_cons, hc]

theorem rstrip_snoc_nonspace {c : Char} (hc : isSp c = false) (y : List Char) :
    rstrip (y ++ [c]) = y ++ [c] := by
  simp [rstrip, List.reverse_append, List.dropWhile_cons, hc]

theorem dropLast_append_of_ne_nil (xs : List Char) :
    ∀ ys : List Char, ys ≠ [] → (xs ++ ys).dropLast = xs ++ ys.dropLast := by
  induction xs with
  | nil => intro ys _; simp
  | cons x xs ih =>
    intro ys hys
    have hne : xs ++ ys ≠ [] := by
      intro h
      rcases List.append_eq_nil.mp h with ⟨-, h2⟩
      exact hys h2
    rcases List.exists_cons_of_ne_nil hne with ⟨z, zs, hz⟩
    calc ((x :: xs) ++ ys).dropLast = (x :: (xs ++ ys)).dropLast := by simp
      _ = x :: (xs ++ ys).dropLast := by rw [hz]; simp
      _ = x :: (xs ++ ys.dropLast) := by rw [ih ys hys]
      _ = (x :: xs) ++ ys.dropLast := by simp

/-! Head-mismatch facts between the scanner's three keywords. -/

theorem isPrefixOf_false_of_head_ne {a b : Char} (as : List Char)
    {bs : List Char} (h : ¬a = b) : (a :: as).isPrefixOf (b :: bs) = false := by
  simp [List.isPrefixOf, h]

theorem typeKw_cons : typeKw = 't' :: "ype".data := rfl

theorem lBrace_cons : lBrace = lbraceChar :: [] := rfl

theorem rBrace_cons : rBrace = rbraceChar :: [] := rfl

theorem not_typeKw_of_lBrace {s : List Char}
    (h : lBrace.isPrefixOf s = true) : typeKw.isPrefixOf s = false := by
  rw [lBrace_cons] at h
  rcases exists_cons_of_isPrefixOf_cons h with ⟨t, rfl, -⟩
  rw [typeKw_cons]
  exact isPrefixOf_false_of_head_ne _ (by decide)

theorem not_rBrace_of_lBrace {s : List Char}
    (h : lBrace.isPrefixOf s = true) : rBrace.isPrefixOf s = false := by
  rw [lBrace_cons] at h
  rcases exists_cons_of_isPrefixOf_cons h with ⟨t, rfl, -⟩
  rw [rBrace_cons]
  exact isPrefixOf_false_of_head_ne _ (by decide)

theorem not_rBrace_of_typeKw {s : List Char}
    (h : typeKw.isPrefixOf s = true) : rBrace.isPrefixOf s = false := by
  rw [typeKw_cons] at h
  rcases exists_cons_of_isPrefixOf_cons h with ⟨t, rfl, -⟩
  rw [rBrace_cons]
  exact isPrefixOf_false_of_head_ne _ (by decide)

theorem not_typeKw_of_rBrace {s : List Char}
    (h : rBrace.isPrefixOf s = true) : typeKw.isPrefixOf s = false := by
  rw [rBrace_cons] at h
  rcases exists_cons_of_isPrefixOf_cons h with ⟨t, rfl, -⟩
  rw [typeKw_cons]
  exact isPrefixOf_false_of_head_ne _ (by decide)

/-! Structure of a rewritten attribute line. -/

theorem typeKw_isPrefixOf_lstrip {l : List Char}
    (h : typeKw.isPrefixOf (pyStrip l) = true) :
    typeKw.isPrefixOf (List.dropWhile isSp l) = true :=
  isPrefixOf_of_isPrefixOf_rstrip (x := lstrip l) h

theorem pyFind_typeKw_eq {l : List Char}
    (h : typeKw.isPrefixOf (List.dropWhile isSp l) = true) :
    pyFind typeKw l = some (List.takeWhile isSp l).length := by
  induction l with
  | nil => exact absurd h (by decide)
  | cons c t ih =>
    cases hp : isSp c with
    | true =>
      rw [List.dropWhile_cons, hp, if_pos rfl] at h
      have hc : typeKw.isPrefixOf (c :: t) = false := by
        rw [typeKw_cons]
        apply isPrefixOf_false_of_head_ne
        intro he
        rw [← he] at hp
        exact absurd hp (by decide)
      rw [pyFind, hc]
      simp only [Bool.false_eq_true, if_false, ih h, Option.map_some]
      rw [List.takeWhile_cons, hp, if_pos rfl]
      simp
    | false =>
      rw [List.dropWhile_cons, hp] at h
      simp only [Bool.false_eq_true, if_false] at h
      rw [pyFind, h, if_pos rfl]
      rw [List.takeWhile_cons, hp]
      simp

theorem take_takeWhile_length (p : Char → Bool) :
    ∀ l : List Char, l.take (List.takeWhile p l).length = List.takeWhile p l := by
  intro l
  induction l with
  | nil => simp
  | cons c t ih =>
    rw [List.takeWhile_cons]
    cases hp : p c with
    | false => simp
    | true => simp [List.take_succ_cons, ih]

theorem rewriteTypeLine_eq {l : List Char} (pt : List Char)
    (h : typeKw.isPrefixOf (pyStrip l) = true) :
    rewriteTypeLine pt l =
      List.takeWhile isSp l ++ "type ".data ++ pt ++ [';', nlChar] := by
  rw [rewriteTypeLine, pyFind_typeKw_eq (typeKw_isPrefixOf_lstrip h)]
  simp only [take_takeWhile_length]

theorem pyStrip_rewritten {ws : List Char} (pt : List Char)
    (hws : ∀ c ∈ ws, isSp c = true) :
    pyStrip (ws ++ "type ".data ++ pt ++ [';', nlChar]) =
      "type ".data ++ pt ++ [';'] := by
  have h1 : lstrip (ws ++ "type ".data ++ pt ++ [';', nlChar]) =
      "type ".data ++ pt ++ [';', nlChar] := by
    rw [lstrip]
    have e : ws ++ "type ".data ++ pt ++ [';', nlChar] =
        ws ++ ("type ".data ++ pt ++ [';', nlChar]) := by
      simp [List.append_assoc]
    rw [e, dropWhile_append_all hws]
    show List.dropWhile isSp ('t' :: ("ype ".data ++ pt ++ [';', nlChar])) =
      't' :: ("ype ".data ++ pt ++ [';', nlChar])
    rw [List.dropWhile_cons]
    have ht : isSp 't' = false := by decide
    rw [ht]
    simp
  rw [pyStrip, h1]
  have e3 : "type ".data ++ pt ++ [';', nlChar] =
      (("type ".data ++ pt) ++ [';']) ++ [nlChar] := by
    simp [List.append_assoc]
  rw [e3, rstrip_snoc_space (by decide),
    rstrip_snoc_nonspace (by decide), List.append_assoc]

theorem typeKw_isPrefixOf_typeSp (pt tail : List Char) :
    typeKw.isPrefixOf ("type ".data ++ pt ++ tail) = true := by
  have h : "type ".data ++ pt ++ tail = typeKw ++ (' ' :: (pt ++ tail)) := by
    simp [typeKw, List.append_assoc]
  rw [h]
  exact isPrefixOf_append_self _ _

/-! Per-line transitions of the scanner. -/

theorem step_name {pn : List Char} (pt : List Char) (sn b : Bool)
    {l : List Char} (h : pyStrip l = pn) :
    stepLine pn pt ⟨false, sn, b⟩ l = (⟨false, true, b⟩, l) := by
  simp [stepLine, h]

theorem step_search_pass {pn : List Char} (pt : List Char) (b : Bool)
    {l : List Char} (h : ¬pyStrip l = pn) :
    stepLine pn pt ⟨false, false, b⟩ l = (⟨false, false, b⟩, l) := by
  simp [stepLine, h]

theorem step_armed_pass {pn : List Char} (pt : List Char) (b : Bool)
    {l : List Char} (h : lBrace.isPrefixOf (pyStrip l) = false) :
    stepLine pn pt ⟨false, true, b⟩ l = (⟨false, true, b⟩, l) := by
  by_cases hpn : pyStrip l = pn
  · simp [stepLine, hpn]
  · simp [stepLine, hpn, h]

theorem step_armed_brace {pn : List Char} (pt : List Char) (b : Bool)
    {l : List Char} (hne : ¬pyStrip l = pn)
    (h : lBrace.isPrefixOf (pyStrip l) = true) :
    stepLine pn pt ⟨false, true, b⟩ l = (⟨true, false, b⟩, l) := by
  have ht := not_typeKw_of_lBrace h
  have hr := not_rBrace_of_lBrace h
  simp [stepLine, hne, h, ht, hr]

theorem step_block_type {pn : List Char} (pt : List Char) (sn b : Bool)
    {l : List Char} (h : typeKw.isPrefixOf (pyStrip l) = true) :
    stepLine pn pt ⟨true, sn, b⟩ l = (⟨true, sn, true⟩, rewriteTypeLine pt l) := by
  have hr := not_rBrace_of_typeKw h
  simp [stepLine, h, hr]

theorem step_block_pass {pn : List Char} (pt : List Char) (sn b : Bool)
    {l : List Char} (ht : typeKw.isPrefixOf (pyStrip l) = false)
    (hr : rBrace.isPrefixOf (pyStrip l) = false) :
    stepLine pn pt ⟨true, sn, b⟩ l = (⟨true, sn, b⟩, l) := by
  simp [stepLine, ht, hr]

theorem step_block_close {pn : List Char} (pt : List Char) (sn b : Bool)
    {l : List Char} (hr : rBrace.isPrefixOf (pyStrip l) = true) :
    stepLine pn pt ⟨true, sn, b⟩ l = (⟨false, sn, b⟩, l) := by
  have ht := not_typeKw_of_rBrace hr
  simp [stepLine, ht, hr]


/-- Exhaustive case analysis of one step, expressed through the seven
transition lemmas: the result of `stepLine` in every case. -/
theorem step_cases (pn pt : List Char) (st : ScanSt) (l : List Char) :
    ∃ sn' : Bool,
      stepLine pn pt st l = (⟨st.inPatch, sn', st.changed⟩, l) ∨
      (st.inPatch = false ∧
        stepLine pn pt st l = (⟨true, false, st.changed⟩, l)) ∨
      (st.inPatch = true ∧ rBrace.isPrefixOf (pyStrip l) = true ∧
        stepLine pn pt st l = (⟨false, st.seenName, st.changed⟩, l)) ∨
      (st.inPatch = true ∧ typeKw.isPrefixOf (pyStrip l) = true ∧
        stepLine pn pt st l =
          (⟨true, st.seenName, true⟩, rewriteTypeLine pt l)) := by
  rcases st with ⟨ip, sn, b⟩
  cases ip with
  | false =>
    by_cases hpn : pyStrip l = pn
    · exact ⟨true, Or.inl (step_name pt sn b hpn)⟩
    · cases sn with
      | false => exact ⟨false, Or.inl (step_search_pass pt b hpn)⟩
      | true =>
        cases hbr : lBrace.isPrefixOf (pyStrip l) with
        | false => exact ⟨true, Or.inl (step_armed_pass pt b hbr)⟩
        | true =>
          exact ⟨false, Or.inr (Or.inl ⟨rfl, step_armed_brace pt b hpn hbr⟩)⟩
  | true =>
    cases ht : typeKw.isPrefixOf (pyStrip l) with
    | true =>
      exact ⟨sn, Or.inr (Or.inr (Or.inr ⟨rfl, rfl, step_block_type pt sn b ht⟩))⟩
    | false =>
      cases hr : rBrace.isPrefixOf (pyStrip l) with
      | false => exact ⟨sn, Or.inl (step_block_pass pt sn b ht hr)⟩
      | true =>
        exact ⟨sn, Or.inr (Or.inr (Or.inl ⟨rfl, rfl, step_block_close pt sn b hr⟩))⟩

/-- Shape of one step: the emitted line is the input line, or the input
line was `type`-prefixed after stripping and is rewritten. -/
theorem step_shape (pn pt : List Char) (st : ScanSt) (l : List Char) :
    (stepLine pn pt st l).2 = l ∨
      (typeKw.isPrefixOf (pyStrip l) = true ∧
        (stepLine pn pt st l).2 = rewriteTypeLine pt l) := by
  rcases step_cases pn pt st l with ⟨sn', h | ⟨-, h⟩ | ⟨-, -, h⟩ | ⟨-, ht, h⟩⟩
  · left; rw [h]
  · left; rw [h]
  · left; rw [h]
  · right; exact ⟨ht, by rw [h]⟩

/-- The `changed` flag is monotone along a step, and a step that leaves it
false emitted its input line unchanged. -/
theorem step_changed (pn pt : List Char) (st : ScanSt) (l : List Char)
    (h : (stepLine pn pt st l).1.changed = false) :
    st.changed = false ∧ (stepLine pn pt st l).2 = l := by
  rcases step_cases pn pt st l with ⟨sn', hc | ⟨-, hc⟩ | ⟨-, -, hc⟩ | ⟨-, -, hc⟩⟩
  · rw [hc] at h ⊢; exact ⟨h, rfl⟩
  · rw [hc] at h ⊢; exact ⟨h, rfl⟩
  · rw [hc] at h ⊢; exact ⟨h, rfl⟩
  · rw [hc] at h; exact absurd h (by simp)

/-! Scan-level lemmas. -/

theorem scanLines_nil (pn pt : List Char) (st : ScanSt) :
    scanLines pn pt st [] = (st, []) := rfl

theorem scanLines_cons (pn pt : List Char) (st : ScanSt) (l : List Char)
    (ls : List (List Char)) :
    scanLines pn pt st (l :: ls) =
      ((scanLines pn pt (stepLine pn pt st l).1 ls).1,
        (stepLine pn pt st l).2 ::
          (scanLines pn pt (stepLine pn pt st l).1 ls).2) := rfl

theorem scanLines_append (pn pt : List Char) :
    ∀ (xs ys : List (List Char)) (st : ScanSt),
      scanLines pn pt st (xs ++ ys) =
        ((scanLines pn pt (scanLines pn pt st xs).1 ys).1,
          (scanLines pn pt st xs).2 ++
            (scanLines pn pt (scanLines pn pt st xs).1 ys).2) := by
  intro xs
  induction xs with
  | nil => intro ys st; simp [scanLines_nil]
  | cons l ls ih =>
    intro ys st
    rw [List.cons_append, scanLines_cons, scanLines_cons, ih]
    simp

theorem scanLines_length (pn pt : List Char) :
    ∀ (ls : List (List Char)) (st : ScanSt),
      (scanLines pn pt st ls).2.length = ls.length := by
  intro ls
  induction ls with
  | nil => intro st; rfl
  | cons l t ih => intro st; rw [scanLines_cons]; simp [ih]

/-- Each output line is the corresponding input line, or that line is
`type`-prefixed after stripping and the output is its rewrite. -/
theorem scanLines_get? (pn pt : List Char) :
    ∀ (ls : List (List Char)) (st : ScanSt) (i : Nat),
      (scanLines pn pt st ls).2.get? i = ls.get? i ∨
        (∃ l, ls.get? i = some l ∧
          typeKw.isPrefixOf (pyStrip l) = true ∧
          (scanLines pn pt st ls).2.get? i = some (rewriteTypeLine pt l)) := by
  intro ls
  induction ls with
  | nil => intro st i; left; rfl
  | cons l t ih =>
    intro st i
    rw [scanLines_cons]
    cases i with
    | zero =>
      rcases step_shape pn pt st l with h | ⟨ht, h⟩
      · left; simp [h]
      · right; exact ⟨l, rfl, ht, by simp [h]⟩
    | succ j =>
      rcases ih (stepLine pn pt st l).1 j with h | ⟨x, hx, htx, hox⟩
      · left; simpa using h
      · right; exact ⟨x, by simpa using hx, htx, by simpa using hox⟩

/-- If the final `changed` flag is false then no line was rewritten: the
output equals the input, and the flag was false at the start. -/
theorem scanLines_unchanged (pn pt : List Char) :
    ∀ (ls : List (List Char)) (st : ScanSt),
      (scanLines pn pt st ls).1.changed = false →
        st.changed = false ∧ (scanLines pn pt st ls).2 = ls := by
  intro ls
  induction ls with
  | nil => intro st h; exact ⟨h, rfl⟩
  | cons l t ih =>
    intro st h
    rw [scanLines_cons] at h ⊢
    simp only at h
    rcases ih (stepLine pn pt st l).1 h with ⟨h1, h2⟩
    rcases step_changed pn pt st l h1 with ⟨h3, h4⟩
    exact ⟨h3, by simp [h2, h4]⟩

/-- While searching with no pending name, a segment in which no stripped
line equals the patch name passes through entirely unchanged. -/
theorem scanLines_search_pass (pn pt : List Char) :
    ∀ (ls : List (List Char)) (b : Bool),
      (∀ l ∈ ls, ¬pyStrip l = pn) →
        scanLines pn pt ⟨false, false, b⟩ ls = (⟨false, false, b⟩, ls) := by
  intro ls
  induction ls with
  | nil => intro b _; rfl
  | cons l t ih =>
    intro b h
    rw [scanLines_cons, step_search_pass pt b (h l (by simp))]
    rw [ih b (fun x hx => h x (by simp [hx]))]

/-- While armed, a segment in which no stripped line starts with an
opening brace passes through unchanged and stays armed. -/
theorem scanLines_armed_pass (pn pt : List Char) :
    ∀ (ls : List (List Char)) (b : Bool),
      (∀ l ∈ ls, lBrace.isPrefixOf (pyStrip l) = false) →
        scanLines pn pt ⟨false, true, b⟩ ls = (⟨false, true, b⟩, ls) := by
  intro ls
  induction ls with
  | nil => intro b _; rfl
  | cons l t ih =>
    intro b h
    rw [scanLines_cons, step_armed_pass pt b (h l (by simp))]
    rw [ih b (fun x hx => h x (by simp [hx]))]

/-- Inside the block, a segment whose stripped lines neither start with
`type` nor with a closing brace passes through unchanged. -/
theorem scanLines_block_pass (pn pt : List Char) :
    ∀ (ls : List (List Char)) (sn b : Bool),
      (∀ l ∈ ls, typeKw.isPrefixOf (pyStrip l) = false ∧
          rBrace.isPrefixOf (pyStrip l) = false) →
        scanLines pn pt ⟨true, sn, b⟩ ls = (⟨true, sn, b⟩, ls) := by
  intro ls
  induction ls with
  | nil => intro sn b _; rfl
  | cons l t ih =>
    intro sn b h
    rw [scanLines_cons,
      step_block_pass pt sn b (h l (by simp)).1 (h l (by simp)).2]
    rw [ih sn b (fun x hx => h x (by simp [hx]))]

/-- A name match can never arise without the scanner leaving the
searching/armed states: if no stripped line equals the patch name, the
scanner never enters a block and never rewrites. -/
theorem scanLines_no_name (pn pt : List Char) :
    ∀ (ls : List (List Char)) (b : Bool),
      (∀ l ∈ ls, ¬pyStrip l = pn) →
        (scanLines pn pt ⟨false, false, b⟩ ls).1.changed = b := by
  intro ls b h
  rw [scanLines_search_pass pn pt ls b h]

/-- If no stripped line starts with an opening brace, the scanner never
enters a block, whatever arming happens, and never rewrites. -/
theorem scanLines_no_brace (pn pt : List Char) :
    ∀ (ls : List (List Char)) (sn b : Bool),
      (∀ l ∈ ls, lBrace.isPrefixOf (pyStrip l) = false) →
        ∃ sn' : Bool,
          scanLines pn pt ⟨false, sn, b⟩ ls = (⟨false, sn', b⟩, ls) := by
  intro ls
  induction ls with
  | nil => intro sn b _; exact ⟨sn, rfl⟩
  | cons l t ih =>
    intro sn b h
    by_cases hpn : pyStrip l = pn
    · rcases ih true b (fun x hx => h x (by simp [hx])) with ⟨sn', h2⟩
      refine ⟨sn', ?_⟩
      rw [scanLines_cons, step_name pt sn b hpn, h2]
    · cases sn with
      | false =>
        rcases ih false b (fun x hx => h x (by simp [hx])) with ⟨sn', h2⟩
        refine ⟨sn', ?_⟩
        rw [scanLines_cons, step_search_pass pt b hpn, h2]
      | true =>
        rcases ih true b (fun x hx => h x (by simp [hx])) with ⟨sn', h2⟩
        refine ⟨sn', ?_⟩
        rw [scanLines_cons, step_armed_pass pt b (h l (by simp)), h2]

/-! Splitting a file into lines and joining them back. -/

theorem flatten_readlinesAux :
    ∀ (cs acc : List Char),
      (readlinesAux cs acc).flatten = acc.reverse ++ cs := by
  intro cs
  induction cs with
  | nil =>
    intro acc
    rw [readlinesAux]
    by_cases h : acc = []
    · simp [h]
    · simp [h]
  | cons c t ih =>
    intro acc
    rw [readlinesAux]
    by_cases h : c = nlChar
    · simp only [h, if_pos rfl, List.flatten_cons, ih]
      simp [ih]
    · simp only [h, if_false, ih]
      simp

/-- `writelines` after `readlines` restores the file content exactly. -/
theorem flatten_readlines (c : List Char) : (readlines c).flatten = c := by
  rw [readlines, flatten_readlinesAux]
  rfl

/-- A line terminated by exactly one final newline. -/
def NlTerm (l : List Char) : Prop := ∃ m, l = m ++ [nlChar] ∧ nlChar ∉ m

/-- A nonempty line whose only possible newline is its final character. -/
def GoodLine (l : List Char) : Prop := l ≠ [] ∧ nlChar ∉ l.dropLast

/-- The lists of lines produced by splitting some file content: every
line is newline-terminated, except possibly the last, which is a
nonempty line with no interior newline. -/
def ValidSplit : List (List Char) → Prop
  | [] => True
  | [l] => GoodLine l
  | l :: ls => NlTerm l ∧ ValidSplit ls

theorem goodLine_of_nlTerm {l : List Char} (h : NlTerm l) : GoodLine l := by
  rcases h with ⟨m, rfl, hm⟩
  refine ⟨by simp, ?_⟩
  rw [List.dropLast_concat]
  exact hm

theorem validSplit_cons {l : List Char} {ls : List (List Char)}
    (h : NlTerm l) (hv : ValidSplit ls) : ValidSplit (l :: ls) := by
  cases ls with
  | nil => exact goodLine_of_nlTerm h
  | cons x xs => exact ⟨h, hv⟩

theorem validSplit_readlinesAux :
    ∀ (cs acc : List Char), nlChar ∉ acc →
      ValidSplit (readlinesAux cs acc) := by
  intro cs
  induction cs with
  | nil =>
    intro acc hacc
    rw [readlinesAux]
    by_cases h : acc = []
    · rw [if_pos h]; trivial
    · rw [if_neg h]
      refine ⟨by simpa using h, ?_⟩
      intro hmem
      exact hacc (by
        have := List.dropLast_sublist (l := acc.reverse)
        have h2 : nlChar ∈ acc.reverse := this.mem hmem
        simpa using h2)
  | cons c t ih =>
    intro acc hacc
    rw [readlinesAux]
    by_cases h : c = nlChar
    · rw [if_pos h]
      refine validSplit_cons ⟨acc.reverse, by simp, by simpa using hacc⟩ ?_
      exact ih [] (by simp)
    · rw [if_neg h]
      refine ih (c :: acc) ?_
      intro hmem
      rcases List.mem_cons.mp hmem with h1 | h1
      · exact h h1.symm
      · exact hacc h1

theorem validSplit_readlines (c : List Char) : ValidSplit (readlines c) :=
  validSplit_readlinesAux c [] (by simp)

theorem readlinesAux_nlTerm {m : List Char} (hm : nlChar ∉ m) :
    ∀ (cs acc : List Char),
      readlinesAux (m ++ nlChar :: cs) acc =
        (acc.reverse ++ m ++ [nlChar]) :: readlinesAux cs [] := by
  induction m with
  | nil =>
    intro cs acc
    rw [List.nil_append, readlinesAux, if_pos rfl]
    simp
  | cons x xs ih =>
    intro cs acc
    have hx : ¬x = nlChar := fun h => hm (by simp [h])
    rw [List.cons_append, readlinesAux, if_neg hx,
      ih (fun h => hm (by simp [h])) cs (x :: acc)]
    simp

theorem readlinesAux_no_nl {l : List Char} (hl : nlChar ∉ l) :
    ∀ acc : List Char, acc ≠ [] ∨ l ≠ [] →
      readlinesAux l acc = [acc.reverse ++ l] := by
  induction l with
  | nil =>
    intro acc hne
    rcases hne with h | h
    · rw [readlinesAux, if_neg h]; simp
    · exact absurd rfl h
  | cons x xs ih =>
    intro acc _
    have hx : ¬x = nlChar := fun h => hl (by simp [h])
    rw [readlinesAux, if_neg hx,
      ih (fun h => hl (by simp [h])) (x :: acc) (Or.inl (by simp))]
    simp

/-- Splitting the join of a valid list of lines restores it exactly. -/
theorem readlines_flatten :
    ∀ ls : List (List Char), ValidSplit ls → readlines ls.flatten = ls := by
  intro ls
  induction ls with
  | nil => intro _; rfl
  | cons l t ih =>
    intro hv
    cases t with
    | nil =>
      have hg : GoodLine l := hv
      rcases hg with ⟨hne, hdrop⟩
      rcases List.eq_nil_or_concat l with h | ⟨m, a, rfl⟩
      · exact absurd h hne
      · simp only [List.concat_eq_append] at hne hdrop ⊢
        rw [List.dropLast_concat] at hdrop
        by_cases ha : a = nlChar
        · subst ha
          rw [List.flatten_cons, List.flatten_nil, List.append_nil,
            readlines, readlinesAux_nlTerm hdrop [] []]
          simp [readlinesAux]
        · have hnol : nlChar ∉ m ++ [a] := by
            intro hmem
            rcases List.mem_append.mp hmem with h1 | h1
            · exact hdrop h1
            · simp at h1; exact ha h1.symm
          rw [List.flatten_cons, List.flatten_nil, List.append_nil,
            readlines, readlinesAux_no_nl hnol [] (Or.inr hne)]
          simp
    | cons y ys =>
      have hnt : NlTerm l := hv.1
      have hvt : ValidSplit (y :: ys) := hv.2
      rcases hnt with ⟨m, rfl, hm⟩
      rw [List.flatten_cons, readlines]
      have e : (m ++ [nlChar]) ++ (y :: ys).flatten =
          m ++ nlChar :: (y :: ys).flatten := by simp
      rw [e, readlinesAux_nlTerm hm _ []]
      have := ih hvt
      rw [readlines] at this
      rw [this]
      simp

/-! Rewritten attribute lines are fixed points of the rewrite. -/

theorem rewrite_rewrite (pt : List Char) {l : List Char}
    (h : typeKw.isPrefixOf (pyStrip l) = true) :
    typeKw.isPrefixOf (pyStrip (rewriteTypeLine pt l)) = true ∧
    rewriteTypeLine pt (rewriteTypeLine pt l) = rewriteTypeLine pt l := by
  have hws : ∀ c ∈ List.takeWhile isSp l, isSp c = true :=
    fun c hc => mem_of_mem_takeWhile hc
  have e1 : rewriteTypeLine pt l =
      List.takeWhile isSp l ++ "type ".data ++ pt ++ [';', nlChar] :=
    rewriteTypeLine_eq pt h
  have s1 : pyStrip (rewriteTypeLine pt l) = "type ".data ++ pt ++ [';'] := by
    rw [e1]; exact pyStrip_rewritten pt hws
  have part1 : typeKw.isPrefixOf (pyStrip (rewriteTypeLine pt l)) = true := by
    rw [s1]; exact typeKw_isPrefixOf_typeSp pt [';']
  refine ⟨part1, ?_⟩
  have e2 : rewriteTypeLine pt (rewriteTypeLine pt l) =
      List.takeWhile isSp (rewriteTypeLine pt l) ++ "type ".data ++ pt ++
        [';', nlChar] := rewriteTypeLine_eq pt part1
  have e3 : List.takeWhile isSp (rewriteTypeLine pt l) =
      List.takeWhile isSp l := by
    rw [e1]
    have e4 : List.takeWhile isSp l ++ "type ".data ++ pt ++ [';', nlChar] =
        List.takeWhile isSp l ++ ("type ".data ++ (pt ++ [';', nlChar])) := by
      simp [List.append_assoc]
    rw [e4]
    exact takeWhile_append_all_stop hws (by decide) _
  rw [e2, e3, ← e1]

/-- A rewritten line inside a good line is newline-terminated. -/
theorem nlTerm_rewrite {l : List Char} (pt : List Char) (hg : GoodLine l)
    (h : typeKw.isPrefixOf (pyStrip l) = true) (hpt : nlChar ∉ pt) :
    NlTerm (rewriteTypeLine pt l) := by
  have hlft := typeKw_isPrefixOf_lstrip h
  rw [typeKw_cons] at hlft
  rcases exists_cons_of_isPrefixOf_cons hlft with ⟨rest, hsplit, -⟩
  have hl : List.takeWhile isSp l ++ ('t' :: rest) = l := by
    rw [← hsplit]
    exact List.takeWhile_append_dropWhile isSp l
  have hnlws : nlChar ∉ List.takeWhile isSp l := by
    intro hmem
    apply hg.2
    have hd : l.dropLast =
        List.takeWhile isSp l ++ ('t' :: rest).dropLast := by
      conv_lhs => rw [← hl]
      exact dropLast_append_of_ne_nil (List.takeWhile isSp l)
        ('t' :: rest) (by simp)
    rw [hd]
    exact List.mem_append.mpr (Or.inl hmem)
  rw [rewriteTypeLine_eq pt h]
  refine ⟨List.takeWhile isSp l ++ "type ".data ++ pt ++ [';'],
    by simp [List.append_assoc], ?_⟩
  intro hmem
  rcases List.mem_append.mp hmem with h1 | h1
  · rcases List.mem_append.mp h1 with h2 | h2
    · rcases List.mem_append.mp h2 with h3 | h3
      · exact hnlws h3
      · have : nlChar ∉ "type ".data := by decide
        exact this h3
    · exact hpt h2
  · simp at h1
    exact absurd h1 (by decide)

/-- Re-running one step from a state agreeing on `inPatch`/`seenName`
over the emitted line reproduces that line and the same
`inPatch`/`seenName` evolution. -/
theorem step_second (pn pt : List Char) (st st₂ : ScanSt) (l : List Char)
    (hip : st₂.inPatch = st.inPatch) (hsn : st₂.seenName = st.seenName) :
    (stepLine pn pt st₂ (stepLine pn pt st l).2).2 =
      (stepLine pn pt st l).2 ∧
    (stepLine pn pt st₂ (stepLine pn pt st l).2).1.inPatch =
      (stepLine pn pt st l).1.inPatch ∧
    (stepLine pn pt st₂ (stepLine pn pt st l).2).1.seenName =
      (stepLine pn pt st l).1.seenName := by
  rcases st with ⟨ip, sn, b⟩
  rcases st₂ with ⟨ip₂, sn₂, b₂⟩
  simp only at hip hsn
  subst hip
  subst hsn
  cases ip₂ with
  | false =>
    by_cases hpn : pyStrip l = pn
    · rw [step_name pt sn₂ b hpn]
      rw [step_name pt sn₂ b₂ hpn]
      exact ⟨rfl, rfl, rfl⟩
    · cases sn₂ with
      | false =>
        rw [step_search_pass pt b hpn]
        rw [step_search_pass pt b₂ hpn]
        exact ⟨rfl, rfl, rfl⟩
      | true =>
        cases hbr : lBrace.isPrefixOf (pyStrip l) with
        | false =>
          rw [step_armed_pass pt b hbr]
          rw [step_armed_pass pt b₂ hbr]
          exact ⟨rfl, rfl, rfl⟩
        | true =>
          rw [step_armed_brace pt b hpn hbr]
          rw [step_armed_brace pt b₂ hpn hbr]
          exact ⟨rfl, rfl, rfl⟩
  | true =>
    cases ht : typeKw.isPrefixOf (pyStrip l) with
    | true =>
      rw [step_block_type pt sn₂ b ht]
      rw [step_block_type pt sn₂ b₂ (rewrite_rewrite pt ht).1]
      rw [(rewrite_rewrite pt ht).2]
      exact ⟨rfl, rfl, rfl⟩
    | false =>
      cases hr : rBrace.isPrefixOf (pyStrip l) with
      | false =>
        rw [step_block_pass pt sn₂ b ht hr]
        rw [step_block_pass pt sn₂ b₂ ht hr]
        exact ⟨rfl, rfl, rfl⟩
      | true =>
        rw [step_block_close pt sn₂ b hr]
        rw [step_block_close pt sn₂ b₂ hr]
        exact ⟨rfl, rfl, rfl⟩

/-- Re-scanning the scanner's own output from a state agreeing on
`inPatch`/`seenName` reproduces that output line for line. -/
theorem scanLines_rescan (pn pt : List Char) :
    ∀ (ls : List (List Char)) (st st₂ : ScanSt),
      st₂.inPatch = st.inPatch → st₂.seenName = st.seenName →
        (scanLines pn pt st₂ (scanLines pn pt st ls).2).2 =
          (scanLines pn pt st ls).2 ∧
        (scanLines pn pt st₂ (scanLines pn pt st ls).2).1.inPatch =
          (scanLines pn pt st ls).1.inPatch ∧
        (scanLines pn pt st₂ (scanLines pn pt st ls).2).1.seenName =
          (scanLines pn pt st ls).1.seenName := by
  intro ls
  induction ls with
  | nil =>
    intro st st₂ hip hsn
    exact ⟨rfl, hip, hsn⟩
  | cons l t ih =>
    intro st st₂ hip hsn
    rw [scanLines_cons pn pt st l t]
    rw [scanLines_cons pn pt st₂]
    rcases step_second pn pt st st₂ l hip hsn with ⟨hl2, hip2, hsn2⟩
    rw [hl2]
    rcases ih (stepLine pn pt st l).1
      (stepLine pn pt st₂ (stepLine pn pt st l).2).1 hip2 hsn2 with
      ⟨ht2, htip, htsn⟩
    exact ⟨by rw [ht2], htip, htsn⟩

/-- The scanner's output is still a valid list of lines when the desired
type contains no newline. -/
theorem scan_valid (pn pt : List Char) (hpt : nlChar ∉ pt) :
    ∀ (ls : List (List Char)) (st : ScanSt), ValidSplit ls →
      ValidSplit (scanLines pn pt st ls).2 := by
  intro ls
  induction ls with
  | nil => intro st _; trivial
  | cons l t ih =>
    intro st hv
    rw [scanLines_cons]
    cases t with
    | nil =>
      have hg : GoodLine l := hv
      show ValidSplit ((stepLine pn pt st l).2 ::
        (scanLines pn pt (stepLine pn pt st l).1 []).2)
      rw [scanLines_nil]
      rcases step_shape pn pt st l with h | ⟨ht, h⟩
      · rw [h]; exact hg
      · rw [h]
        exact goodLine_of_nlTerm (nlTerm_rewrite pt hg ht hpt)
    | cons y ys =>
      have hnt : NlTerm l := hv.1
      have hvt : ValidSplit (y :: ys) := hv.2
      refine validSplit_cons ?_ (ih _ hvt)
      rcases step_shape pn pt st l with h | ⟨ht, h⟩
      · rw [h]; exact hnt
      · rw [h]
        exact nlTerm_rewrite pt (goodLine_of_nlTerm hnt) ht hpt

theorem enforce_content_eq (path pn pt content : List Char) :
    (enforce_patch_type path pn pt content).content =
      (scanLines pn pt initSt (readlines content)).2.flatten := rfl

/-- Re-reading the file written by the corrector recovers exactly the
lines the corrector produced, when the type has no newline. -/
theorem readlines_enforce (pn pt content : List Char) (hpt : nlChar ∉ pt) :
    readlines (scanLines pn pt initSt (readlines content)).2.flatten =
      (scanLines pn pt initSt (readlines content)).2 :=
  readlines_flatten _
    (scan_valid pn pt hpt (readlines content) initSt
      (validSplit_readlines content))

/-! Composition helpers for assembling a whole scan. -/

theorem scanLines_append_eq (pn pt : List Char) {xs ys xs' ys' : List (List Char)}
    {st st1 st2 : ScanSt}
    (hx : scanLines pn pt st xs = (st1, xs'))
    (hy : scanLines pn pt st1 ys = (st2, ys')) :
    scanLines pn pt st (xs ++ ys) = (st2, xs' ++ ys') := by
  rw [scanLines_append pn pt xs ys st, hx]
  dsimp only
  rw [hy]

theorem scanLines_cons_eq (pn pt : List Char) {l l' : List Char}
    {ls ls' : List (List Char)} {st st1 st2 : ScanSt}
    (hl : stepLine pn pt st l = (st1, l'))
    (hls : scanLines pn pt st1 ls = (st2, ls')) :
    scanLines pn pt st (l :: ls) = (st2, l' :: ls') := by
  rw [scanLines_cons, hl]
  dsimp only
  rw [hls]

/-- If the scan ends with `changed = false`, the written file equals the
original content byte for byte. -/
theorem enforce_unchanged (path pn pt content : List Char)
    (h : (enforceLines pn pt (readlines content)).2 = false) :
    (enforce_patch_type path pn pt content).content = content := by
  have h2 := (scanLines_unchanged pn pt (readlines content) initSt h).2
  rw [enforce_content_eq, h2, flatten_readlines]

/-- Claim C1, counterexample: a descriptor containing the pattern of the
claim — the target name, an opening brace, and a `type` attribute line —
in which a second line of the same block also has a stripped `type`
prefix.  `enforce_patch_type` rewrites both lines, so a line other than
the matched attribute line is not byte-identical to the input, refuting
the claim as stated. -/
theorem C1_counterexample :
    enforceLines "symmetryPlane".data "symmetry".data
        ["symmetryPlane\n".data, "\x7b\n".data, "type patch;\n".data,
          "type wall;\n".data, "\x7d\n".data] =
      (["symmetryPlane\n".data, "\x7b\n".data, "type symmetry;\n".data,
          "type symmetry;\n".data, "\x7d\n".data], true) ∧
    "type wall;\n".data ≠ "type symmetry;\n".data := by
  constructor
  · decide
  · decide

/-- Claim C1 (amended): for every descriptor text that decomposes into a
prefix passed through unchanged in the searching state, a line whose
stripped content equals the target patch name, pass-through lines none of
which opens a brace, an opening-brace line, block lines of which exactly
one has stripped content starting with `type`, the closing-brace line and
a suffix passed through unchanged, `enforce_patch_type` succeeds and
rewrites exactly that attribute line to `type <desired>;`, preserving the
original line's leading indentation, and leaves every other line of the
file byte-identical to the input. -/
theorem C1_theorem (pn pt : List Char)
    (pre mids bodyPre bodyPost post : List (List Char))
    (nameLine braceLine typeLine closeLine : List Char)
    (hpre : scanLines pn pt initSt pre = (initSt, pre))
    (hname : pyStrip nameLine = pn)
    (hmids : ∀ l ∈ mids, lBrace.isPrefixOf (pyStrip l) = false)
    (hbrace : lBrace.isPrefixOf (pyStrip braceLine) = true)
    (hbraceNe : ¬pyStrip braceLine = pn)
    (hbodyPre : ∀ l ∈ bodyPre, typeKw.isPrefixOf (pyStrip l) = false ∧
      rBrace.isPrefixOf (pyStrip l) = false)
    (htype : typeKw.isPrefixOf (pyStrip typeLine) = true)
    (hbodyPost : ∀ l ∈ bodyPost, typeKw.isPrefixOf (pyStrip l) = false ∧
      rBrace.isPrefixOf (pyStrip l) = false)
    (hclose : rBrace.isPrefixOf (pyStrip closeLine) = true)
    (hpost : scanLines pn pt ⟨false, false, true⟩ post =
      (⟨false, false, true⟩, post)) :
    enforceLines pn pt
        (pre ++ (nameLine :: (mids ++ (braceLine :: (bodyPre ++
          (typeLine :: (bodyPost ++ (closeLine :: post)))))))) =
      (pre ++ (nameLine :: (mids ++ (braceLine :: (bodyPre ++
        ((List.takeWhile isSp typeLine ++ "type ".data ++ pt ++
          [';', nlChar]) :: (bodyPost ++ (closeLine :: post))))))), true) := by
  have c8 : scanLines pn pt ⟨true, false, true⟩ (closeLine :: post) =
      (⟨false, false, true⟩, closeLine :: post) :=
    scanLines_cons_eq pn pt (step_block_close pt false true hclose) hpost
  have c7 : scanLines pn pt ⟨true, false, true⟩
      (bodyPost ++ (closeLine :: post)) =
      (⟨false, false, true⟩, bodyPost ++ (closeLine :: post)) :=
    scanLines_append_eq pn pt
      (scanLines_block_pass pn pt bodyPost false true hbodyPost) c8
  have c6 : scanLines pn pt ⟨true, false, false⟩
      (typeLine :: (bodyPost ++ (closeLine :: post))) =
      (⟨false, false, true⟩,
        rewriteTypeLine pt typeLine :: (bodyPost ++ (closeLine :: post))) :=
    scanLines_cons_eq pn pt (step_block_type pt false false htype) c7
  have c5 : scanLines pn pt ⟨true, false, false⟩
      (bodyPre ++ (typeLine :: (bodyPost ++ (closeLine :: post)))) =
      (⟨false, false, true⟩,
        bodyPre ++ (rewriteTypeLine pt typeLine ::
          (bodyPost ++ (closeLine :: post)))) :=
    scanLines_append_eq pn pt
      (scanLines_block_pass pn pt bodyPre false false hbodyPre) c6
  have c4 : scanLines pn pt ⟨false, true, false⟩
      (braceLine :: (bodyPre ++ (typeLine ::
        (bodyPost ++ (closeLine :: post))))) =
      (⟨false, false, true⟩,
        braceLine :: (bodyPre ++ (rewriteTypeLine pt typeLine ::
          (bodyPost ++ (closeLine :: post))))) :=
    scanLines_cons_eq pn pt (step_armed_brace pt false hbraceNe hbrace) c5
  have c3 : scanLines pn pt ⟨false, true, false⟩
      (mids ++ (braceLine :: (bodyPre ++ (typeLine ::
        (bodyPost ++ (closeLine :: post)))))) =
      (⟨false, false, true⟩,
        mids ++ (braceLine :: (bodyPre ++ (rewriteTypeLine pt typeLine ::
          (bodyPost ++ (closeLine :: post)))))) :=
    scanLines_append_eq pn pt
      (scanLines_armed_pass pn pt mids false hmids) c4
  have c2 : scanLines pn pt initSt
      (nameLine :: (mids ++ (braceLine :: (bodyPre ++ (typeLine ::
        (bodyPost ++ (closeLine :: post))))))) =
      (⟨false, false, true⟩,
        nameLine :: (mids ++ (braceLine :: (bodyPre ++
          (rewriteTypeLine pt typeLine ::
            (bodyPost ++ (closeLine :: post))))))) :=
    scanLines_cons_eq pn pt (step_name pt false false hname) c3
  have c1 := scanLines_append_eq pn pt hpre c2
  show ((scanLines pn pt initSt _).2, (scanLines pn pt initSt _).1.changed) = _
  rw [c1]
  rw [rewriteTypeLine_eq pt htype]

/-- Claim C1, witness: a concrete four-line descriptor on which the
amended theorem applies and produces the expected rewrite. -/
theorem C1_witness :
    enforceLines "symmetryPlane".data "symmetry".data
        ["symmetryPlane\n".data, "\x7b\n".data, "    type patch;\n".data,
          "\x7d\n".data] =
      (["symmetryPlane\n".data, "\x7b\n".data, "    type symmetry;\n".data,
          "\x7d\n".data], true) := by
  have h := C1_theorem "symmetryPlane".data "symmetry".data
    [] [] [] [] [] "symmetryPlane\n".data "\x7b\n".data
    "    type patch;\n".data "\x7d\n".data
    rfl (by decide) (by simp) (by decide) (by decide) (by simp)
    (by decide) (by simp) (by decide) rfl
  exact h

/-- Claim C2: `enforce_patch_type` raises its error — whose message names
the patch name, the desired type and the file path — if and only if no
attribute line was rewritten by the end of the scan; in particular it
fails whenever no stripped line equals the patch name, and whenever no
stripped line starts with an opening brace; in the failure case the file
content on disk is unchanged from the original; and it completes without
error exactly when a rewrite occurred. -/
theorem C2_theorem (path pn pt content : List Char) :
    ((enforce_patch_type path pn pt content).error =
        some (errMsg pn pt path) ↔
      (enforceLines pn pt (readlines content)).2 = false) ∧
    ((enforce_patch_type path pn pt content).error = none ↔
      (enforceLines pn pt (readlines content)).2 = true) ∧
    (∃ s1 s2 s3 s4, errMsg pn pt path =
      s1 ++ pn ++ s2 ++ pt ++ s3 ++ path ++ s4) ∧
    ((enforceLines pn pt (readlines content)).2 = false →
      (enforce_patch_type path pn pt content).content = content) ∧
    ((∀ l ∈ readlines content, ¬pyStrip l = pn) →
      (enforceLines pn pt (readlines content)).2 = false) ∧
    ((∀ l ∈ readlines content, lBrace.isPrefixOf (pyStrip l) = false) →
      (enforceLines pn pt (readlines content)).2 = false) := by
  refine ⟨?_, ?_, ?_, ?_, ?_, ?_⟩
  · show (if (enforceLines pn pt (readlines content)).2 then none
      else some (errMsg pn pt path)) = some (errMsg pn pt path) ↔ _
    cases hb : (enforceLines pn pt (readlines content)).2 with
    | false => simp
    | true => simp
  · show (if (enforceLines pn pt (readlines content)).2 then none
      else some (errMsg pn pt path)) = none ↔ _
    cases hb : (enforceLines pn pt (readlines content)).2 with
    | false => simp
    | true => simp
  · exact ⟨"Failed to set patch ".data ++ [quoteChar],
      [quoteChar] ++ " type to ".data ++ [quoteChar],
      [quoteChar] ++ " in ".data, ".".data,
      by simp [errMsg, List.append_assoc]⟩
  · exact enforce_unchanged path pn pt content
  · intro h
    exact scanLines_no_name pn pt (readlines content) false h
  · intro h
    rcases scanLines_no_brace pn pt (readlines content) false false h with
      ⟨sn', h2⟩
    show (scanLines pn pt initSt (readlines content)).1.changed = false
    rw [show initSt = (⟨false, false, false⟩ : ScanSt) from rfl, h2]

/-- Claim C2, witness: on a one-line file with no patch block the call
fails and the file content is untouched. -/
theorem C2_witness :
    (enforce_patch_type "p".data "symmetryPlane".data "symmetry".data
        "x\n".data).content = "x\n".data := by
  have h := C2_theorem "p".data "symmetryPlane".data "symmetry".data
    "x\n".data
  exact h.2.2.2.1 (h.2.2.2.2.1 (by decide))

/-- Claim C3, counterexample: a descriptor whose target block already
carries `type symmetry;`.  `enforce_patch_type` succeeds (a rewrite
occurred, so no error), yet the output file is byte-identical to the
input: zero lines differ, not exactly one, refuting the claim as
stated. -/
theorem C3_counterexample :
    enforce_patch_type "p".data "symmetryPlane".data "symmetry".data
        "symmetryPlane\n\x7b\ntype symmetry;\n\x7d\n".data =
      ⟨"symmetryPlane\n\x7b\ntype symmetry;\n\x7d\n".data, none⟩ := by
  decide

/-- Claim C3 (amended): for every input on which `enforce_patch_type`
succeeds, every line is appended in order to the output — total line
count and line order are preserved — and a line can differ from the input
only by being a stripped-`type`-prefixed line rewritten to the resolved
value; the rewrite of an already-correct attribute line coincides with
the input, so the number of differing lines can be zero, and every
rewritten line of an entered block differs in the same way. -/
theorem C3_theorem (pn pt : List Char) (lines : List (List Char))
    (hsucc : (enforceLines pn pt lines).2 = true) :
    (enforceLines pn pt lines).1.length = lines.length ∧
    ∀ i : Nat,
      (enforceLines pn pt lines).1.get? i = lines.get? i ∨
        ∃ l, lines.get? i = some l ∧
          typeKw.isPrefixOf (pyStrip l) = true ∧
          (enforceLines pn pt lines).1.get? i =
            some (rewriteTypeLine pt l) :=
  ⟨scanLines_length pn pt lines initSt,
   fun i => scanLines_get? pn pt lines initSt i⟩

/-- Claim C3, witness: line count preserved on a concrete successful
run. -/
theorem C3_witness :
    (enforceLines "symmetryPlane".data "symmetry".data
        ["symmetryPlane\n".data, "\x7b\n".data, "type patch;\n".data,
          "\x7d\n".data]).1.length = 4 := by
  have h := C3_theorem "symmetryPlane".data "symmetry".data
    ["symmetryPlane\n".data, "\x7b\n".data, "type patch;\n".data,
      "\x7d\n".data] (by decide)
  exact h.1

/-- Claim C4, counterexample: with a desired type containing a newline,
the first run writes an attribute line that the second run's `readlines`
splits into two lines, and the second run appends another rewrite: the
two file contents differ, refuting idempotence as stated. -/
theorem C4_counterexample :
    (enforce_patch_type "p".data "symmetryPlane".data "a\nx".data
        ((enforce_patch_type "p".data "symmetryPlane".data "a\nx".data
          "symmetryPlane\n\x7b\ntype patch;\n\x7d\n".data).content)).content ≠
      (enforce_patch_type "p".data "symmetryPlane".data "a\nx".data
        "symmetryPlane\n\x7b\ntype patch;\n\x7d\n".data).content := by
  decide

/-- Claim C4 (amended): for every desired type containing no newline
character — as any real boundary-condition keyword — applying
`enforce_patch_type` twice in succession on the same file with the same
patch name and desired type yields file content identical to applying it
once. -/
theorem C4_theorem (path pn pt content : List Char) (hpt : nlChar ∉ pt) :
    (enforce_patch_type path pn pt
        ((enforce_patch_type path pn pt content).content)).content =
      (enforce_patch_type path pn pt content).content := by
  rw [enforce_content_eq path pn pt ((enforce_patch_type path pn pt content).content),
    enforce_content_eq path pn pt content, readlines_enforce pn pt content hpt,
    (scanLines_rescan pn pt (readlines content) initSt initSt rfl rfl).1]

/-- Claim C4, witness: idempotence on a concrete descriptor with the
newline-free type `symmetry`. -/
theorem C4_witness :
    (enforce_patch_type "p".data "symmetryPlane".data "symmetry".data
        ((enforce_patch_type "p".data "symmetryPlane".data "symmetry".data
          "symmetryPlane\n\x7b\ntype patch;\n\x7d\n".data).content)).content =
      (enforce_patch_type "p".data "symmetryPlane".data "symmetry".data
        "symmetryPlane\n\x7b\ntype patch;\n\x7d\n".data).content :=
  C4_theorem "p".data "symmetryPlane".data "symmetry".data
    "symmetryPlane\n\x7b\ntype patch;\n\x7d\n".data (by decide)

/-- A line processed while the scanner is not inside a block is never
edited: rewrites happen only inside entered blocks. -/
theorem step_outside_unchanged (pn pt : List Char) (st : ScanSt)
    (l : List Char) (h : st.inPatch = false) :
    (stepLine pn pt st l).2 = l := by
  rcases step_cases pn pt st l with
    ⟨sn', hc | ⟨-, hc⟩ | ⟨-, -, hc⟩ | ⟨hip, -, -⟩⟩
  · rw [hc]
  · rw [hc]
  · rw [hc]
  · rw [h] at hip
    simp at hip

/-- Claim C5: once a closing brace is seen inside the target block the
scanner returns to the searching state and emits the closing line
unchanged; from the searching state a segment in which no stripped line
equals the target patch name is passed through with no rewrite and no
state change; while armed, intervening lines that do not open a brace
are passed through unedited and do not reset the armed state; an
opening-brace line seen while armed enters the block, unedited; a line
processed while not inside a block is never edited, so only blocks
actually entered are edited; and a line stripped-equal to the name
re-arms the scanner whenever it occurs outside a block. -/
theorem C5_theorem (pn pt : List Char) (sn b : Bool) (l : List Char)
    (ls : List (List Char)) :
    (rBrace.isPrefixOf (pyStrip l) = true →
      stepLine pn pt ⟨true, sn, b⟩ l = (⟨false, sn, b⟩, l)) ∧
    ((∀ x ∈ ls, ¬pyStrip x = pn) →
      scanLines pn pt ⟨false, false, b⟩ ls = (⟨false, false, b⟩, ls)) ∧
    ((∀ x ∈ ls, lBrace.isPrefixOf (pyStrip x) = false) →
      scanLines pn pt ⟨false, true, b⟩ ls = (⟨false, true, b⟩, ls)) ∧
    (¬pyStrip l = pn → lBrace.isPrefixOf (pyStrip l) = true →
      stepLine pn pt ⟨false, true, b⟩ l = (⟨true, false, b⟩, l)) ∧
    (∀ st : ScanSt, st.inPatch = false → (stepLine pn pt st l).2 = l) ∧
    (pyStrip l = pn →
      stepLine pn pt ⟨false, sn, b⟩ l = (⟨false, true, b⟩, l)) :=
  ⟨fun h => step_block_close pt sn b h,
   fun h => scanLines_search_pass pn pt ls b h,
   fun h => scanLines_armed_pass pn pt ls b h,
   fun hne h => step_armed_brace pt b hne h,
   fun st h => step_outside_unchanged pn pt st l h,
   fun h => step_name pt sn b h⟩

/-- Claim C5, witness: the six behaviours at concrete inputs — closing
brace, searching pass-through, armed pass-through, block entry, a `type`
line left unedited outside any block, and re-arming. -/
theorem C5_witness :
    stepLine "symmetryPlane".data "symmetry".data ⟨true, false, false⟩
        "\x7d\n".data = (⟨false, false, false⟩, "\x7d\n".data) ∧
    scanLines "symmetryPlane".data "symmetry".data ⟨false, false, false⟩
        ["other\n".data] = (⟨false, false, false⟩, ["other\n".data]) ∧
    scanLines "symmetryPlane".data "symmetry".data ⟨false, true, false⟩
        ["note\n".data] = (⟨false, true, false⟩, ["note\n".data]) ∧
    stepLine "symmetryPlane".data "symmetry".data ⟨false, true, false⟩
        "\x7b\n".data = (⟨true, false, false⟩, "\x7b\n".data) ∧
    (stepLine "symmetryPlane".data "symmetry".data ⟨false, false, false⟩
        "    type patch;\n".data).2 = "    type patch;\n".data ∧
    stepLine "symmetryPlane".data "symmetry".data ⟨false, false, false⟩
        "symmetryPlane\n".data =
      (⟨false, true, false⟩, "symmetryPlane\n".data) :=
  ⟨( C5_theorem "symmetryPlane".data "symmetry".data false false
      "\x7d\n".data []).1 (by decide),
   ( C5_theorem "symmetryPlane".data "symmetry".data false false
      "x".data ["other\n".data]).2.1 (by decide),
   ( C5_theorem "symmetryPlane".data "symmetry".data false false
      "x".data ["note\n".data]).2.2.1 (by decide),
   ( C5_theorem "symmetryPlane".data "symmetry".data false false
      "\x7b\n".data []).2.2.2.1 (by decide) (by decide),
   ( C5_theorem "symmetryPlane".data "symmetry".data false false
      "    type patch;\n".data []).2.2.2.2.1 ⟨false, false, false⟩ rfl,
   ( C5_theorem "symmetryPlane".data "symmetry".data false false
      "symmetryPlane\n".data []).2.2.2.2.2 (by decide)⟩

/-- Claim C6, counterexample: the empty token is not case-insensitively
equal to `symmetryplane`, yet it is not passed through unchanged: the
truthiness default maps it to `symmetry`, refuting "passes every other
token through unchanged" as stated. -/
theorem C6_counterexample :
    normalize_symmetry_type (some []) = "symmetry".data ∧
    List.map Char.toLower [] ≠ "symmetryplane".data ∧
    ([] : List Char) ≠ "symmetry".data := by
  decide

/-- Claim C6 (amended): the normalization maps any token whose lowercase
form equals `symmetryplane` to `symmetry`, passes every other non-empty
token through unchanged, and maps an absent or empty token to
`symmetry`; in particular the four quoted examples hold. -/
theorem C6_theorem :
    (∀ t : List Char, t.map Char.toLower = "symmetryplane".data →
      normalize_symmetry_type (some t) = "symmetry".data) ∧
    (∀ t : List Char, t ≠ [] → ¬t.map Char.toLower = "symmetryplane".data →
      normalize_symmetry_type (some t) = t) ∧
    normalize_symmetry_type none = "symmetry".data ∧
    normalize_symmetry_type (some "symmetryPlane".data) = "symmetry".data ∧
    normalize_symmetry_type (some "SymmetryPlane".data) = "symmetry".data ∧
    normalize_symmetry_type (some "wall".data) = "wall".data := by
  refine ⟨?_, ?_, by decide, by decide, by decide, by decide⟩
  · intro t ht
    have hne : t.isEmpty = false := by
      cases t with
      | nil => exact absurd ht (by decide)
      | cons a b => rfl
    simp [normalize_symmetry_type, hne, ht]
  · intro t hne hlow
    have hne' : t.isEmpty = false := by
      cases t with
      | nil => exact absurd rfl hne
      | cons a b => rfl
    simp [normalize_symmetry_type, hne', hlow]

/-- Claim C6, witness: a non-empty token not equal to the legacy keyword
passes through unchanged. -/
theorem C6_witness :
    normalize_symmetry_type (some "wedge".data) = "wedge".data :=
  C6_theorem.2.1 "wedge".data (by decide) (by decide)

/-- Claim C7: for every positive cell count, the radial chop is uniform —
the given count and no grading parameters — when no wall-adjacent size is
requested, and otherwise carries the given count, the boundary cell size
pinned exactly to the requested wall thickness, and a cell-to-cell
expansion ratio exactly 1.2. -/
theorem C7_theorem (count : Int) (hc : 0 < count) :
    radial_chop count none = ⟨count, none, none⟩ ∧
    ∀ w : ℚ, 0 < w →
      radial_chop count (some w) = ⟨count, some w, some ((12 : ℚ) / 10)⟩ :=
  ⟨rfl, fun _ _ => rfl⟩

/-- Claim C7, witness: the graded chop at count 8 and wall size 1/1000. -/
theorem C7_witness :
    radial_chop 8 (some (1 / 1000)) =
      ⟨8, some (1 / 1000), some ((12 : ℚ) / 10)⟩ :=
  (C7_theorem 8 (by decide)).2 (1 / 1000) (by norm_num)

/-- Claim C8: the effect trace of `enforce_patch_type` performs the
write-back as its second event on every execution path — its content
being exactly what ends up on disk — and a run that raises the
patch-correction error has still written the file, with content
byte-identical to the original. -/
theorem C8_theorem (path pn pt content : List Char) :
    (enforceTrace path pn pt content).get? 1 =
      some (FsEvent.writeF path
        (enforce_patch_type path pn pt content).content) ∧
    (FsEvent.raiseE (errMsg pn pt path) ∈ enforceTrace path pn pt content →
      (enforce_patch_type path pn pt content).content = content) := by
  constructor
  · rfl
  · intro hmem
    by_cases hb : (enforceLines pn pt (readlines content)).2 = true
    · exfalso
      have htr : enforceTrace path pn pt content =
          [FsEvent.readF path, FsEvent.writeF path
            (enforceLines pn pt (readlines content)).1.flatten] := by
        simp [enforceTrace, hb]
      rw [htr] at hmem
      simp at hmem
    · exact enforce_unchanged path pn pt content (by simpa using hb)

/-- Claim C8, witness: a failing run has written back the original
content. -/
theorem C8_witness :
    (enforce_patch_type "p".data "symmetryPlane".data "symmetry".data
        "y\n".data).content = "y\n".data := by
  have h := C8_theorem "p".data "symmetryPlane".data "symmetry".data
    "y\n".data
  exact h.2 (by decide)

/-- Claim C9: any falsy configured symmetry patch type — the empty string
as well as an absent key — defaults to `symmetry`, because the
truthiness default is applied before the `symmetryplane` coercion. -/
theorem C9_theorem :
    normalize_symmetry_type (some []) = "symmetry".data ∧
    normalize_symmetry_type none = "symmetry".data ∧
    normalize_symmetry_type (some []) = normalize_symmetry_type none := by
  decide

/-- Claim C10: besides the four named patch assignments,
`build_quarter_cylinder` performs a fifth: it sets a default patch named
`default` whose kind is the wall patch name, after the quarter-cylinder
is added to the mesh (position 8) and before serialization
(position 11). -/
theorem C10_theorem (length radius : ℚ)
    (axial_cells radial_cells tangential_cells : Int)
    (wall_thickness : Option ℚ)
    (wall_patch symmetry_patch symmetry_patch_type : List Char)
    (start_patch end_patch output_path : List Char)
    (debug_vtk : Option (List Char)) :
    (build_quarter_cylinder length radius axial_cells radial_cells
        tangential_cells wall_thickness wall_patch symmetry_patch
        symmetry_patch_type start_patch end_patch output_path
        debug_vtk).1 =
      [BuildStep.construct (0, 0, 0) (0, 0, length) (radius, 0, 0),
        BuildStep.chop_axial axial_cells,
        BuildStep.chop_radial (radial_chop radial_cells wall_thickness),
        BuildStep.chop_tangential tangential_cells,
        BuildStep.set_start_patch start_patch,
        BuildStep.set_end_patch end_patch,
        BuildStep.set_outer_patch wall_patch,
        BuildStep.set_symmetry_patch symmetry_patch,
        BuildStep.mesh_add,
        BuildStep.set_default_patch "default".data wall_patch,
        BuildStep.makedirs_dirname output_path,
        BuildStep.mesh_write output_path debug_vtk,
        BuildStep.enforce output_path symmetry_patch
          symmetry_patch_type] ∧
    (build_quarter_cylinder length radius axial_cells radial_cells
        tangential_cells wall_thickness wall_patch symmetry_patch
        symmetry_patch_type start_patch end_patch output_path
        debug_vtk).1.get? 8 = some BuildStep.mesh_add ∧
    (build_quarter_cylinder length radius axial_cells radial_cells
        tangential_cells wall_thickness wall_patch symmetry_patch
        symmetry_patch_type start_patch end_patch output_path
        debug_vtk).1.get? 9 =
      some (BuildStep.set_default_patch "default".data wall_patch) ∧
    (build_quarter_cylinder length radius axial_cells radial_cells
        tangential_cells wall_thickness wall_patch symmetry_patch
        symmetry_patch_type start_patch end_patch output_path
        debug_vtk).1.get? 11 =
      some (BuildStep.mesh_write output_path debug_vtk) :=
  ⟨rfl, rfl, rfl, rfl⟩
